import Mathlib

/-
Verification of the gemma-chat repository against its specification.

The repository is a full-stack chat application: a React/TypeScript frontend
(present under src/frontend) and a Python/FastAPI backend (its documentation,
README and setup scripts are present, the Python sources themselves are not).
Frontend behaviour is embedded directly from the TypeScript sources
(ChatView.tsx, api.ts).  Backend behaviour (token estimator, context
composer, streaming relay, maintenance scheduler, per-thread serialization)
is modelled from the specification, as marked on each definition.
-/

namespace GemmaChat

/-- Role of a chat message; the closed set used across the backend and the
frontend schema (z.enum of system, user, assistant). -/
inductive Role where
  | system
  | user
  | assistant
deriving DecidableEq, Repr

/-- A stored chat message as the composer sees it: a role and a text content.
The persistence identity and timestamps are irrelevant to composition. -/
structure Msg where
  role : Role
  content : String
deriving DecidableEq, Repr

/-- A role-tagged prompt segment, the output unit of the context composer. -/
structure Segment where
  role : Role
  content : String
deriving DecidableEq, Repr

/-- Modelled from the spec: the token estimator of backend/llm.py, documented
in the repository README (Known Issues) as the heuristic len(text) // 4. -/
def estimateTokens (s : String) : Nat :=
  s.length / 4

/-- Modelled from the spec: the system-prompt segment, included first when the
system prompt is non-empty (spec 4.2 step 1). -/
def systemSegs (systemPrompt : String) : List Segment :=
  if systemPrompt = "" then [] else [⟨Role.system, systemPrompt⟩]

/-- Modelled from the spec: the summary segment, included as a second fixed
segment whenever a summary exists, regardless of budget (spec 4.2 step 2). -/
def summarySegs (summary : Option String) : List Segment :=
  match summary with
  | none => []
  | some s => [⟨Role.system, s⟩]

/-- Total estimated tokens of a list of segments. -/
def segmentsEstimate (segs : List Segment) : Nat :=
  (segs.map (fun g => estimateTokens g.content)).sum

/-- Modelled from the spec: estimated tokens already consumed by the fixed
parts of a composition: system prompt, summary (if any) and the new user
message; this seeds the running total of the history walk (spec 4.2 step 3). -/
def fixedEstimate (systemPrompt : String) (summary : Option String)
    (newUserText : String) : Nat :=
  segmentsEstimate (systemSegs systemPrompt ++ summarySegs summary)
    + estimateTokens newUserText

/-- Modelled from the spec: estimated tokens of the two mandatory segments
alone: the system prompt and the newest user message (spec section 3,
Context Budget invariant). -/
def mandatoryEstimate (systemPrompt : String) (newUserText : String) : Nat :=
  segmentsEstimate (systemSegs systemPrompt) + estimateTokens newUserText

/-- Modelled from the spec: the newest-first selection walk of spec 4.2
step 3.  The input list is the history reversed (most recent first); the walk
keeps a running total and appends candidates while the total stays within the
budget, stopping at the first candidate that would exceed it. -/
def selectNewestFirst (budget : Nat) : List Msg → Nat → List Msg
  | [], _ => []
  | m :: rest, total =>
    if total + estimateTokens m.content ≤ budget then
      m :: selectNewestFirst budget rest (total + estimateTokens m.content)
    else []

/-- Segment built from a history message, carrying its full content. -/
def msgSeg (m : Msg) : Segment :=
  ⟨m.role, m.content⟩

/-- Segment carrying the new user message, always appended last. -/
def newSeg (newUserText : String) : Segment :=
  ⟨Role.user, newUserText⟩

/-- Modelled from the spec: the context composer of spec 4.2 (the backend
prompt-composition logic described in docs/ARCHITECTURE.md).  System prompt
first (if non-empty), summary second (if present), then the history messages
selected newest-first re-ordered back to chronological order, then the new
user message last. -/
def compose (systemPrompt : String) (summary : Option String)
    (history : List Msg) (newUserText : String) (budget : Nat) : List Segment :=
  let seed := fixedEstimate systemPrompt summary newUserText
  let selected := selectNewestFirst budget history.reverse seed
  systemSegs systemPrompt ++ summarySegs summary
    ++ selected.reverse.map msgSeg ++ [newSeg newUserText]

/-- History estimate: the sum of estimated tokens of a list of messages. -/
def histEstimate (msgs : List Msg) : Nat :=
  (msgs.map (fun m => estimateTokens m.content)).sum

/-- Role as the frontend display type uses it (ChatView.tsx DisplayMessage):
only user and assistant appear in the streaming view. -/
inductive ChatRole where
  | user
  | assistant
deriving DecidableEq, Repr

/-- The UI-only message type of ChatView.tsx, used for optimistic updates and
streaming. -/
structure DisplayMessage where
  id : String
  role : ChatRole
  content : String
deriving DecidableEq, Repr

/-- The chunk handler of messageMutation.onSuccess in ChatView.tsx: each
arriving chunk is appended to the content of the last display message
(prev[prev.length - 1].content += chunk).  On an empty list the source would
fault; the theorems only use it on non-empty lists. -/
def appendChunkToLast : List DisplayMessage → String → List DisplayMessage
  | [], _ => []
  | [m], chunk => [{ m with content := m.content ++ chunk }]
  | m :: rest, chunk => m :: appendChunkToLast rest chunk

/-- The read loop of messageMutation.onSuccess in ChatView.tsx: fold every
arriving chunk into the display list, in arrival order. -/
def streamIntoMessages (msgs : List DisplayMessage) (chunks : List String) :
    List DisplayMessage :=
  chunks.foldl appendChunkToLast msgs

/-- Left fold concatenating chunks onto an initial accumulator, in arrival
order. -/
def accumulateFrom (acc : String) (chunks : List String) : String :=
  chunks.foldl (fun a c => a ++ c) acc

/-- Modelled from the spec: the accumulated full text of a streamed response,
the concatenation of all chunks in arrival order (spec 4.3). -/
def relayAccumulate (chunks : List String) : String :=
  accumulateFrom "" chunks

/-- Modelled from the spec: the ephemeral stream session of spec section 3,
holding the accumulated assistant text, a completion flag and an error flag. -/
structure StreamSession where
  accumulated : String
  completed : Bool
  errorFlag : Bool
deriving DecidableEq, Repr

/-- An event observed by the client on the streaming channel: a text chunk,
a normal end-of-stream, or an explicit error signal. -/
inductive StreamEvent where
  | chunk (text : String)
  | done
  | errorSignal
deriving DecidableEq, Repr

/-- Modelled from the spec: a successful streaming relay run over a finite
chunk sequence (spec 4.3): every chunk is forwarded in arrival order, then
end-of-stream is signalled exactly once; the session exposes the fully
accumulated text. -/
def relayStream (chunks : List String) : StreamSession × List StreamEvent :=
  (⟨relayAccumulate chunks, true, false⟩,
    chunks.map StreamEvent.chunk ++ [StreamEvent.done])

/-- Modelled from the spec: a relay run in which the backend fails after
producing the given chunks (spec 4.3 Failure, spec 7): the relay stops, marks
the error flag, keeps the accumulated text, and the client-visible stream
ends with an explicit error signal instead of a silent close. -/
def relayStreamFail (chunks : List String) : StreamSession × List StreamEvent :=
  (⟨relayAccumulate chunks, false, true⟩,
    chunks.map StreamEvent.chunk ++ [StreamEvent.errorSignal])

/-- Modelled from the spec: the assistant text persisted after a stream ends,
namely the session's accumulated text, for both normal and failed streams
(spec 4.5 StreamingToClient to ResponsePersisted). -/
def persistedAssistantText (sess : StreamSession) : String :=
  sess.accumulated

/-- Texts of the chunk events of a client-visible stream, in order. -/
def eventTexts (events : List StreamEvent) : List String :=
  events.filterMap (fun e =>
    match e with
    | StreamEvent.chunk t => some t
    | _ => none)

/-- Modelled from the spec: the auto-title trigger of spec 4.4, firing exactly
when the thread had no messages before the exchange that just completed
(docs/ARCHITECTURE.md: a title is generated only for the first exchange). -/
def shouldAutoTitle (priorMessageCount : Nat) : Bool :=
  priorMessageCount == 0

/-- Modelled from the spec: a run of consecutive completed exchanges on one
thread.  Each exchange appends two messages (the user message and the
assistant response) and reports whether auto-title fired for it. -/
def runExchanges : Nat → Nat → List Bool
  | 0, _ => []
  | n + 1, msgCount => shouldAutoTitle msgCount :: runExchanges n (msgCount + 2)

/-- Whitespace as JavaScript's String.prototype.trim treats it (the characters
relevant to chat input). -/
def jsWhitespace (c : Char) : Bool :=
  c == ' ' || c == '\t' || c == '\n' || c == '\r' || c == '\x0b' || c == '\x0c'

/-- JavaScript's String.prototype.trim: strip whitespace from both ends. -/
def jsTrim (s : String) : String :=
  ⟨((s.data.dropWhile jsWhitespace).reverse.dropWhile jsWhitespace).reverse⟩

/-- The component state handleSubmit reads and writes in ChatView.tsx: the
display message list and the text input value. -/
structure SubmitState where
  displayMessages : List DisplayMessage
  inputValue : String
deriving DecidableEq, Repr

/-- The mutation issued by handleSubmit: a POST of the content to the thread's
messages endpoint, which persists the user message and starts generation. -/
structure MutationCall where
  threadId : String
  content : String
deriving DecidableEq, Repr

/-- handleSubmit of ChatView.tsx.  The guard (not threadId or not
inputValue.trim()) returns before any state change or mutation; otherwise the
user message and an empty assistant placeholder are appended, the input is
cleared, and the mutation is issued with the original content.  The two fresh
nanoid values are passed as parameters. -/
def handleSubmit (freshUserId freshAssistantId : String)
    (threadId : Option String) (st : SubmitState) :
    SubmitState × Option MutationCall :=
  match threadId with
  | none => (st, none)
  | some tid =>
    if jsTrim st.inputValue = "" then (st, none)
    else
      (⟨st.displayMessages
          ++ [⟨freshUserId, ChatRole.user, st.inputValue⟩,
              ⟨freshAssistantId, ChatRole.assistant, ""⟩], ""⟩,
        some ⟨tid, st.inputValue⟩)

/-- Digits followed by a final Z, the tail of a fractional-second field. -/
def fracThenZ : List Char → Bool
  | ['Z'] => true
  | c :: rest => c.isDigit && fracThenZ rest
  | [] => false

/-- Tail of a zod datetime after the seconds field: either Z directly, or a
dot, at least one fractional digit, then Z. -/
def zodDatetimeTail : List Char → Bool
  | ['Z'] => true
  | '.' :: c :: rest => c.isDigit && fracThenZ (c :: rest)
  | _ => false

/-- The datetime check of z.string().datetime() in api.ts: the shape
YYYY-MM-DDTHH:MM:SS with optional fractional seconds and a mandatory Z, no
offsets. -/
def isZodDatetime (s : String) : Bool :=
  match s.data with
  | y1 :: y2 :: y3 :: y4 :: '-' :: mo1 :: mo2 :: '-' :: d1 :: d2 :: 'T' ::
      h1 :: h2 :: ':' :: mi1 :: mi2 :: ':' :: c1 :: c2 :: rest =>
    y1.isDigit && y2.isDigit && y3.isDigit && y4.isDigit
      && mo1.isDigit && mo2.isDigit && d1.isDigit && d2.isDigit
      && h1.isDigit && h2.isDigit && mi1.isDigit && mi2.isDigit
      && c1.isDigit && c2.isDigit && zodDatetimeTail rest
  | _ => false

/-- The role validation of MessageSchema in api.ts: z.enum of system, user,
assistant.  Any other string fails to parse. -/
def parseRole (s : String) : Option Role :=
  if s = "system" then some Role.system
  else if s = "user" then some Role.user
  else if s = "assistant" then some Role.assistant
  else none

/-- A raw message payload as received from the server, before MessageSchema
validation: the role is an arbitrary string. -/
structure RawMessage where
  id : String
  thread_id : String
  role : String
  content : String
  tokens : Option Int
  created_at : String
deriving DecidableEq, Repr

/-- A validated message as MessageSchema.parse returns it: the role comes
from the closed enum. -/
structure Message where
  id : String
  thread_id : String
  role : Role
  content : String
  tokens : Option Int
  created_at : String
deriving DecidableEq, Repr

/-- MessageSchema.parse of api.ts: role must be in the closed enum and
created_at must be a zod datetime, otherwise parsing fails. -/
def parseMessage (r : RawMessage) : Option Message :=
  match parseRole r.role with
  | none => none
  | some ro =>
    if isZodDatetime r.created_at then
      some ⟨r.id, r.thread_id, ro, r.content, r.tokens, r.created_at⟩
    else none

/-- A raw thread payload before ThreadSchema validation. -/
structure RawThread where
  id : String
  title : String
  created_at : String
  updated_at : String
  summary : Option String
deriving DecidableEq, Repr

/-- A validated thread as ThreadSchema.parse returns it. -/
structure Thread where
  id : String
  title : String
  created_at : String
  updated_at : String
  summary : Option String
deriving DecidableEq, Repr

/-- ThreadSchema.parse of api.ts: both timestamps must be zod datetimes. -/
def parseThread (r : RawThread) : Option Thread :=
  if isZodDatetime r.created_at && isZodDatetime r.updated_at then
    some ⟨r.id, r.title, r.created_at, r.updated_at, r.summary⟩
  else none

/-- A raw payload of a thread together with its messages, the response shape
of the single-thread endpoint. -/
structure RawThreadWithMessages where
  thread : RawThread
  messages : List RawMessage
deriving DecidableEq, Repr

/-- A validated thread with its validated messages
(ThreadWithMessagesSchema). -/
structure ThreadWithMessages where
  thread : Thread
  messages : List Message
deriving DecidableEq, Repr

/-- Validation of z.array(MessageSchema): every element must parse; one bad
element fails the whole array. -/
def parseMessages : List RawMessage → Option (List Message)
  | [] => some []
  | r :: rest =>
    match parseMessage r with
    | none => none
    | some m =>
      match parseMessages rest with
      | none => none
      | some ms => some (m :: ms)

/-- ThreadWithMessagesSchema.parse of api.ts: the thread fields and every
message must validate; one bad message fails the whole payload. -/
def parseThreadWithMessages (r : RawThreadWithMessages) :
    Option ThreadWithMessages :=
  match parseThread r.thread with
  | none => none
  | some t =>
    match parseMessages r.messages with
    | none => none
    | some ms => some ⟨t, ms⟩

/-- A fetch response as the api.ts functions see it: the ok flag and the
decoded JSON body. -/
structure FetchResponse (α : Type) where
  ok : Bool
  body : α
deriving DecidableEq, Repr

/-- getThread of api.ts: throw on a non-ok response, then parse with
ThreadWithMessagesSchema, which throws on any invalid payload. -/
def getThread (resp : FetchResponse RawThreadWithMessages) :
    Except String ThreadWithMessages :=
  if resp.ok then
    match parseThreadWithMessages resp.body with
    | none => Except.error "ZodError: invalid thread payload"
    | some v => Except.ok v
  else Except.error "Failed to fetch thread"

/-- Validation of z.array(ThreadSchema): every element must parse. -/
def parseThreadList : List RawThread → Option (List Thread)
  | [] => some []
  | r :: rest =>
    match parseThread r with
    | none => none
    | some t =>
      match parseThreadList rest with
      | none => none
      | some ts => some (t :: ts)

/-- getThreads of api.ts: throw on a non-ok response, then parse the body
with z.array(ThreadSchema); thread list payloads carry no messages. -/
def getThreads (resp : FetchResponse (List RawThread)) :
    Except String (List Thread) :=
  if resp.ok then
    match parseThreadList resp.body with
    | none => Except.error "ZodError: invalid threads payload"
    | some ts => Except.ok ts
  else Except.error "Failed to fetch threads"

/-- JSON escaping of one character, as JSON.stringify performs it for the
characters that can occur in these payloads. -/
def jsStringEscapeChar (c : Char) : String :=
  if c = '"' then "\\\""
  else if c = '\\' then "\\\\"
  else if c = '\n' then "\\n"
  else if c = '\r' then "\\r"
  else if c = '\t' then "\\t"
  else String.singleton c

/-- A JSON string literal: the escaped text between double quotes. -/
def jsStringLit (s : String) : String :=
  "\"" ++ String.join (s.data.map jsStringEscapeChar) ++ "\""

/-- JSON.stringify of a flat object with string values, as used for the api.ts
request bodies. -/
def jsonStringifyObj (fields : List (String × String)) : String :=
  "\x7b"
    ++ String.intercalate ","
        (fields.map (fun kv => jsStringLit kv.1 ++ ":" ++ jsStringLit kv.2))
    ++ "\x7d"

/-- An HTTP request as issued by the api.ts fetch calls. -/
structure HttpRequest where
  url : String
  method : String
  body : String
deriving DecidableEq, Repr

/-- The request createThread of api.ts sends: a POST to /api/threads whose body
is JSON.stringify of the object with the fixed default title New Thread. -/
def createThreadRequest : HttpRequest :=
  ⟨"/api/threads", "POST", jsonStringifyObj [("title", "New Thread")]⟩

/-- createThread of api.ts, applied to the response: throw on a non-ok
response, otherwise parse the body with ThreadSchema. -/
def createThread (resp : FetchResponse RawThread) : Except String Thread :=
  if resp.ok then
    match parseThread resp.body with
    | none => Except.error "ZodError: invalid thread payload"
    | some t => Except.ok t
  else Except.error "Failed to create thread"

/-- A message persisted on the thread during one of two concurrent exchanges,
identified by which exchange wrote it. -/
inductive StoreMsg where
  | userMsg (i : Bool)
  | assistantMsg (i : Bool)
deriving DecidableEq, Repr

/-- Modelled from the spec: the shared state of two concurrent exchanges on
one thread (spec section 5): the thread-scoped exclusive critical section,
one program counter per exchange, the persisted message list, and the context
snapshot each exchange composed. -/
structure OrchState where
  lock : Option Bool
  pc0 : Nat
  pc1 : Nat
  store : List StoreMsg
  view0 : Option (List StoreMsg)
  view1 : Option (List StoreMsg)
deriving DecidableEq, Repr

/-- Program counter of exchange i. -/
def pcOf (s : OrchState) (i : Bool) : Nat :=
  if i then s.pc1 else s.pc0

/-- Set the program counter of exchange i. -/
def setPc (s : OrchState) (i : Bool) (k : Nat) : OrchState :=
  if i then { s with pc1 := k } else { s with pc0 := k }

/-- Composed-context snapshot of exchange i. -/
def viewOf (s : OrchState) (i : Bool) : Option (List StoreMsg) :=
  if i then s.view1 else s.view0

/-- Record the composed-context snapshot of exchange i. -/
def setView (s : OrchState) (i : Bool) (v : List StoreMsg) : OrchState :=
  if i then { s with view1 := some v } else { s with view0 := some v }

/-- Modelled from the spec: one atomic step of exchange i under the per-thread
serialization discipline of spec section 5.  Step 0 acquires the exclusive
thread-scoped critical section (required before UserPersisted); steps 1 to 4
(persist user message, compose context from the current history, persist
assistant message, evaluate maintenance and release) all require holding it.
A step that is not enabled yields none. -/
def stepProc (s : OrchState) (i : Bool) : Option OrchState :=
  match pcOf s i with
  | 0 =>
    match s.lock with
    | none => some (setPc { s with lock := some i } i 1)
    | some _ => none
  | 1 =>
    if s.lock = some i then
      some (setPc { s with store := s.store ++ [StoreMsg.userMsg i] } i 2)
    else none
  | 2 =>
    if s.lock = some i then
      some (setPc (setView s i s.store) i 3)
    else none
  | 3 =>
    if s.lock = some i then
      some (setPc { s with store := s.store ++ [StoreMsg.assistantMsg i] } i 4)
    else none
  | 4 =>
    if s.lock = some i then
      some (setPc { s with lock := none } i 5)
    else none
  | _ => none

/-- Run a schedule (a list of exchange identifiers) from a state; an
interleaving that schedules a disabled step is invalid and yields none. -/
def execTrace : OrchState → List Bool → Option OrchState
  | s, [] => some s
  | s, i :: t =>
    match stepProc s i with
    | none => none
    | some s1 => execTrace s1 t

/-- The initial state: lock free, both exchanges before UserPersisted, empty
history, no composed context yet. -/
def initState : OrchState :=
  ⟨none, 0, 0, [], none, none⟩

/-- Both exchanges have run to completion (through MaintenanceEvaluated and
release, back to Idle). -/
def completeRun (s : OrchState) : Prop :=
  s.pc0 = 5 ∧ s.pc1 = 5

/-- The context the later exchange j composes when i ran first: i's user and
assistant messages followed by j's own just-persisted user message. -/
def composedViewSeq (i j : Bool) : List StoreMsg :=
  [StoreMsg.userMsg i, StoreMsg.assistantMsg i, StoreMsg.userMsg j]

/-- Exchange i ran to completion strictly before exchange j began: the
schedule is i's five steps followed by j's five steps, and j's composed
context contains all of i's persisted messages. -/
def ranFirstThen (i j : Bool) (t : List Bool) (s : OrchState) : Prop :=
  t = List.replicate 5 i ++ List.replicate 5 j
    ∧ viewOf s j = some (composedViewSeq i j)
    ∧ StoreMsg.userMsg i ∈ composedViewSeq i j
    ∧ StoreMsg.assistantMsg i ∈ composedViewSeq i j

/-- The two exchanges were observably serialized, one way or the other. -/
def serializedOutcome (t : List Bool) (s : OrchState) : Prop :=
  ranFirstThen false true t s ∨ ranFirstThen true false t s

/-- Outcome check for one scheduled run: if it is valid and complete, it must
be serialized. -/
def okOutcome : Option OrchState → List Bool → Prop
  | none, _ => True
  | some s, t => completeRun s → serializedOutcome t s

/-- Sum of the two program counters; each valid step increases it by one. -/
def pcSum (s : OrchState) : Nat :=
  s.pc0 + s.pc1

/-- The canonical schedule in which exchange false runs first. -/
def canonicalTraceFT : List Bool :=
  [false, false, false, false, false, true, true, true, true, true]

/-- The final state of the canonical schedule. -/
def finalStateFT : OrchState :=
  ⟨none, 5, 5,
    [StoreMsg.userMsg false, StoreMsg.assistantMsg false,
      StoreMsg.userMsg true, StoreMsg.assistantMsg true],
    some [StoreMsg.userMsg false],
    some (composedViewSeq false true)⟩

instance (i j : Bool) (t : List Bool) (s : OrchState) :
    Decidable (ranFirstThen i j t s) := by
  unfold ranFirstThen; infer_instance

instance (t : List Bool) (s : OrchState) :
    Decidable (serializedOutcome t s) := by
  unfold serializedOutcome; infer_instance

instance (s : OrchState) : Decidable (completeRun s) := by
  unfold completeRun; infer_instance

instance : (o : Option OrchState) → (t : List Bool) → Decidable (okOutcome o t)
  | none, _ => Decidable.isTrue True.intro
  | some s, t =>
    inferInstanceAs (Decidable (completeRun s → serializedOutcome t s))

example : estimateTokens "abcdefgh" = 2 := by decide

example :
    compose "sys!" none [⟨Role.user, "aaaa"⟩, ⟨Role.assistant, "bbbb"⟩] "new!" 4
      = [⟨Role.system, "sys!"⟩, ⟨Role.user, "aaaa"⟩, ⟨Role.assistant, "bbbb"⟩,
          ⟨Role.user, "new!"⟩] := by decide

example :
    compose "sys!" none [⟨Role.user, "aaaa"⟩, ⟨Role.assistant, "bbbb"⟩] "new!" 3
      = [⟨Role.system, "sys!"⟩, ⟨Role.assistant, "bbbb"⟩, ⟨Role.user, "new!"⟩] := by
  decide

lemma selectNewestFirst_front (budget : Nat) :
    ∀ (l : List Msg) (total : Nat),
      ∃ t, l = selectNewestFirst budget l total ++ t := by
  intro l
  induction l with
  | nil => intro total; exact ⟨[], rfl⟩
  | cons m rest ih =>
    intro total
    by_cases h : total + estimateTokens m.content ≤ budget
    · obtain ⟨t, ht⟩ := ih (total + estimateTokens m.content)
      refine ⟨t, ?_⟩
      simp only [selectNewestFirst, if_pos h, List.cons_append]
      exact congrArg (m :: ·) ht
    · exact ⟨m :: rest, by simp [selectNewestFirst, h]⟩

lemma selectNewestFirst_total (budget : Nat) :
    ∀ (l : List Msg) (total : Nat), total ≤ budget →
      total + histEstimate (selectNewestFirst budget l total) ≤ budget := by
  intro l
  induction l with
  | nil => intro total h; simpa [selectNewestFirst, histEstimate] using h
  | cons m rest ih =>
    intro total h
    by_cases hm : total + estimateTokens m.content ≤ budget
    · have := ih (total + estimateTokens m.content) hm
      simp only [selectNewestFirst, if_pos hm, histEstimate, List.map_cons,
        List.sum_cons] at *
      omega
    · simpa [selectNewestFirst, hm, histEstimate] using h

lemma selectNewestFirst_nil_of_over (budget : Nat) (l : List Msg) (total : Nat)
    (h : budget < total) : selectNewestFirst budget l total = [] := by
  cases l with
  | nil => rfl
  | cons m rest =>
    have hm : ¬ total + estimateTokens m.content ≤ budget := by omega
    simp [selectNewestFirst, hm]

lemma selectNewestFirst_mem (budget : Nat) :
    ∀ (l : List Msg) (total : Nat) (m : Msg),
      m ∈ selectNewestFirst budget l total →
      total + estimateTokens m.content ≤ budget := by
  intro l
  induction l with
  | nil => intro total m hm; simp [selectNewestFirst] at hm
  | cons a rest ih =>
    intro total m hm
    by_cases ha : total + estimateTokens a.content ≤ budget
    · simp only [selectNewestFirst, if_pos ha, List.mem_cons] at hm
      rcases hm with rfl | hm
      · exact ha
      · have := ih (total + estimateTokens a.content) m hm
        omega
    · simp [selectNewestFirst, ha] at hm

lemma segmentsEstimate_append (a b : List Segment) :
    segmentsEstimate (a ++ b) = segmentsEstimate a + segmentsEstimate b := by
  simp [segmentsEstimate]

lemma segmentsEstimate_map_msgSeg (l : List Msg) :
    segmentsEstimate (l.map msgSeg) = histEstimate l := by
  simp [segmentsEstimate, histEstimate, msgSeg, List.map_map]
  rfl

lemma histEstimate_reverse (l : List Msg) :
    histEstimate l.reverse = histEstimate l := by
  simp [histEstimate, List.sum_reverse]

/-- Decomposition of a composition: the output is the fixed preamble, then a
suffix of the history mapped to segments, then the new user message. -/
lemma compose_decomposition (systemPrompt : String) (summary : Option String)
    (history : List Msg) (newUserText : String) (budget : Nat) :
    ∃ pre incl, history = pre ++ incl
      ∧ incl.reverse = selectNewestFirst budget history.reverse
          (fixedEstimate systemPrompt summary newUserText)
      ∧ compose systemPrompt summary history newUserText budget
          = systemSegs systemPrompt ++ summarySegs summary
              ++ incl.map msgSeg ++ [newSeg newUserText] := by
  obtain ⟨t, ht⟩ := selectNewestFirst_front budget history.reverse
    (fixedEstimate systemPrompt summary newUserText)
  refine ⟨t.reverse,
    (selectNewestFirst budget history.reverse
      (fixedEstimate systemPrompt summary newUserText)).reverse, ?_, by simp, ?_⟩
  · have := congrArg List.reverse ht
    simpa [List.reverse_append] using this
  · simp [compose]

example :
    compose "sys!" none [⟨Role.user, "aaaa"⟩, ⟨Role.assistant, "bbbb"⟩] "new!" 4
      = [⟨Role.system, "sys!"⟩, ⟨Role.user, "aaaa"⟩, ⟨Role.assistant, "bbbb"⟩,
          ⟨Role.user, "new!"⟩] := by decide

/-- C2: the composed output is always the system segment (when the system
prompt is non-empty), then the summary segment (when a summary exists), then
some suffix of the history, in its original chronological oldest-first order,
then the new user message last, even though selection walks newest-first. -/
theorem composerOrdering (systemPrompt : String) (summary : Option String)
    (history : List Msg) (newUserText : String) (budget : Nat) :
    ∃ pre incl, history = pre ++ incl
      ∧ compose systemPrompt summary history newUserText budget
          = systemSegs systemPrompt ++ summarySegs summary
              ++ incl.map msgSeg ++ [newSeg newUserText] := by
  obtain ⟨pre, incl, h1, _, h3⟩ :=
    compose_decomposition systemPrompt summary history newUserText budget
  exact ⟨pre, incl, h1, h3⟩

/-- C1 (amended): the composed prompt's total estimate stays within the budget
whenever the fixed segments (system prompt, summary if present, and the new
user message) fit; when the fixed segments alone exceed the budget, the
composer emits exactly the fixed segments and zero history messages. -/
theorem composerBudgetAmended (systemPrompt : String) (summary : Option String)
    (history : List Msg) (newUserText : String) (budget : Nat) :
    (fixedEstimate systemPrompt summary newUserText ≤ budget
        ∧ segmentsEstimate
            (compose systemPrompt summary history newUserText budget) ≤ budget)
      ∨ (budget < fixedEstimate systemPrompt summary newUserText
          ∧ compose systemPrompt summary history newUserText budget
              = systemSegs systemPrompt ++ summarySegs summary
                  ++ [newSeg newUserText]) := by
  obtain ⟨pre, incl, hsplit, hsel, hout⟩ :=
    compose_decomposition systemPrompt summary history newUserText budget
  rcases le_or_lt (fixedEstimate systemPrompt summary newUserText) budget
    with hle | hlt
  · left
    refine ⟨hle, ?_⟩
    have htot := selectNewestFirst_total budget history.reverse
      (fixedEstimate systemPrompt summary newUserText) hle
    rw [hout, segmentsEstimate_append, segmentsEstimate_append,
      segmentsEstimate_append, segmentsEstimate_map_msgSeg]
    have hincl : histEstimate incl
        = histEstimate (selectNewestFirst budget history.reverse
            (fixedEstimate systemPrompt summary newUserText)) := by
      rw [← hsel, histEstimate_reverse]
    rw [hincl]
    simp only [fixedEstimate, segmentsEstimate_append] at hle htot ⊢
    simp [segmentsEstimate, newSeg] at *
    omega
  · right
    refine ⟨hlt, ?_⟩
    have hnil := selectNewestFirst_nil_of_over budget history.reverse
      (fixedEstimate systemPrompt summary newUserText) hlt
    have : incl = [] := by
      have := congrArg List.reverse hsel
      simpa [hnil] using this
    rw [hout, this]
    simp

/-- C1 (counterexample to the claim as stated): with an empty system prompt, a
48-character summary, an empty history, the new message hi and budget 10, the
total estimate of the composed prompt is 12 and exceeds the budget, yet the
mandatory segments (system prompt and newest user message) estimate 0 and do
not exceed the budget, so neither branch of the claim holds. -/
theorem composerBudgetClaim_refuted :
    segmentsEstimate
        (compose "" (some "xxxxxxxxxxxxxxxxxxxxxxxxxxxxxxxxxxxxxxxxxxxxxxxx")
          [] "hi" 10) = 12
      ∧ mandatoryEstimate "" "hi" = 0
      ∧ ¬ (segmentsEstimate
              (compose ""
                (some "xxxxxxxxxxxxxxxxxxxxxxxxxxxxxxxxxxxxxxxxxxxxxxxx")
                [] "hi" 10) ≤ 10
            ∨ (10 < mandatoryEstimate "" "hi"
                ∧ compose ""
                    (some "xxxxxxxxxxxxxxxxxxxxxxxxxxxxxxxxxxxxxxxxxxxxxxxx")
                    [] "hi" 10
                  = systemSegs "" ++ [newSeg "hi"])) := by
  refine ⟨by decide, by decide, ?_⟩
  decide

/-- C5: every history message is included in full or not at all: the included
history is a contiguous suffix of the history with each message's exact role
and content, each included message fits the budget remaining after the fixed
segments, and a message whose estimate alone exceeds that remainder is never
included. -/
theorem composerWholeMessages (systemPrompt : String) (summary : Option String)
    (history : List Msg) (newUserText : String) (budget : Nat) :
    ∃ pre incl, history = pre ++ incl
      ∧ compose systemPrompt summary history newUserText budget
          = systemSegs systemPrompt ++ summarySegs summary
              ++ incl.map msgSeg ++ [newSeg newUserText]
      ∧ (∀ m ∈ incl,
          fixedEstimate systemPrompt summary newUserText
            + estimateTokens m.content ≤ budget)
      ∧ (∀ m ∈ incl, msgSeg m = ⟨m.role, m.content⟩)
      ∧ (∀ m ∈ history,
          budget < fixedEstimate systemPrompt summary newUserText
              + estimateTokens m.content → m ∉ incl) := by
  obtain ⟨pre, incl, hsplit, hsel, hout⟩ :=
    compose_decomposition systemPrompt summary history newUserText budget
  have hfits : ∀ m ∈ incl,
      fixedEstimate systemPrompt summary newUserText
        + estimateTokens m.content ≤ budget := by
    intro m hm
    have hmem : m ∈ selectNewestFirst budget history.reverse
        (fixedEstimate systemPrompt summary newUserText) := by
      rw [← hsel]
      simpa using hm
    exact selectNewestFirst_mem budget history.reverse _ m hmem
  refine ⟨pre, incl, hsplit, hout, hfits, fun m _ => rfl, ?_⟩
  intro m _ hover hmem
  have := hfits m hmem
  omega

lemma appendChunkToLast_cons (a : DisplayMessage) (l : List DisplayMessage)
    (c : String) (h : l ≠ []) :
    appendChunkToLast (a :: l) c = a :: appendChunkToLast l c := by
  cases l with
  | nil => exact absurd rfl h
  | cons b rest => rfl

lemma appendChunkToLast_append (init : List DisplayMessage)
    (m : DisplayMessage) (c : String) :
    appendChunkToLast (init ++ [m]) c
      = init ++ [{ m with content := m.content ++ c }] := by
  induction init with
  | nil => rfl
  | cons a rest ih =>
    rw [List.cons_append,
      appendChunkToLast_cons a (rest ++ [m]) c (by simp), ih,
      List.cons_append]

lemma streamIntoMessages_append (init : List DisplayMessage)
    (m : DisplayMessage) (chunks : List String) :
    streamIntoMessages (init ++ [m]) chunks
      = init ++ [{ m with content := accumulateFrom m.content chunks }] := by
  induction chunks generalizing m with
  | nil => simp [streamIntoMessages, accumulateFrom]
  | cons c cs ih =>
    have hstep : streamIntoMessages (init ++ [m]) (c :: cs)
        = streamIntoMessages (appendChunkToLast (init ++ [m]) c) cs := rfl
    rw [hstep, appendChunkToLast_append, ih]
    rfl

/-- C3: for every finite chunk sequence, folding the chunks into the display
list as the onSuccess read loop of ChatView.tsx does leaves every earlier
message untouched and makes the assistant placeholder's content the
concatenation of the chunks in arrival order, which is exactly the text the
relay accumulates and persists; in particular the chunk sequence Hel, lo-comma,
world! yields Hello, world! on both sides. -/
theorem streamingRelayFaithful (init : List DisplayMessage) (mid : String)
    (chunks : List String) :
    streamIntoMessages (init ++ [⟨mid, ChatRole.assistant, ""⟩]) chunks
        = init ++ [⟨mid, ChatRole.assistant, relayAccumulate chunks⟩]
      ∧ persistedAssistantText (relayStream chunks).1 = relayAccumulate chunks
      ∧ relayAccumulate ["Hel", "lo, ", "world!"] = "Hello, world!"
      ∧ persistedAssistantText (relayStream ["Hel", "lo, ", "world!"]).1
          = "Hello, world!" := by
  refine ⟨?_, rfl, by decide, by decide⟩
  simpa [relayAccumulate] using
    streamIntoMessages_append init ⟨mid, ChatRole.assistant, ""⟩ chunks

/-- C4: when the backend stream fails after producing some chunks, the
session still accumulates exactly the concatenation of the chunks received so
far (possibly empty) and that text is what gets persisted, the error flag is
set, and the client-visible event stream is the forwarded chunks followed by
an explicit error signal as its last event, never a silent close; in
particular failure after Par, tial persists exactly Partial. -/
theorem streamFailurePersistsPartial (chunks : List String) :
    persistedAssistantText (relayStreamFail chunks).1 = relayAccumulate chunks
      ∧ (relayStreamFail chunks).1.errorFlag = true
      ∧ (relayStreamFail chunks).1.completed = false
      ∧ (relayStreamFail chunks).2
          = chunks.map StreamEvent.chunk ++ [StreamEvent.errorSignal]
      ∧ ((relayStreamFail chunks).2).getLast? = some StreamEvent.errorSignal
      ∧ relayAccumulate (eventTexts (relayStreamFail chunks).2)
          = relayAccumulate chunks
      ∧ persistedAssistantText (relayStreamFail ["Par", "tial"]).1
          = "Partial" := by
  refine ⟨rfl, rfl, rfl, rfl, ?_, ?_, by decide⟩
  · simp [relayStreamFail]
  · have hev : eventTexts (relayStreamFail chunks).2 = chunks := by
      simp [relayStreamFail, eventTexts, List.filterMap_append,
        List.filterMap_map]
      exact List.filterMap_some chunks
    rw [hev]

lemma runExchanges_no_retrigger :
    ∀ (n : Nat) (c : Nat), c ≠ 0 →
      runExchanges n c = List.replicate n false := by
  intro n
  induction n with
  | zero => intro c _; rfl
  | succ k ih =>
    intro c hc
    have hfire : shouldAutoTitle c = false := by
      simp [shouldAutoTitle]
      omega
    simp [runExchanges, hfire, ih (c + 2) (by omega), List.replicate_succ]

/-- C6: on a fresh thread, a run of n + 1 completed exchanges fires the
auto-title trigger on the first exchange and on no later one, hence exactly
once. -/
theorem autoTitleExactlyOnce (n : Nat) :
    runExchanges (n + 1) 0 = true :: List.replicate n false
      ∧ (runExchanges (n + 1) 0).count true = 1 := by
  have h : runExchanges (n + 1) 0 = true :: List.replicate n false := by
    simp [runExchanges, shouldAutoTitle,
      runExchanges_no_retrigger n 2 (by omega)]
  refine ⟨h, ?_⟩
  rw [h]
  simp [List.count_cons, List.count_replicate]

/-- C7: handleSubmit of ChatView.tsx rejects a submission with no thread
selected or a whitespace-only input before doing anything: the display state
is unchanged and no mutation (hence no persisted message and no generation
call) is issued. -/
theorem emptyInputRejected (freshUserId freshAssistantId : String)
    (threadId : Option String) (st : SubmitState)
    (h : threadId = none ∨ jsTrim st.inputValue = "") :
    handleSubmit freshUserId freshAssistantId threadId st = (st, none) := by
  rcases h with h | h
  · rw [h]; rfl
  · cases threadId with
    | none => rfl
    | some tid => simp [handleSubmit, h]

/-- Witness for C7 at a concrete whitespace-only input. -/
theorem emptyInputRejected_witness :
    jsTrim "   " = ""
      ∧ handleSubmit "u1" "a1" (some "t1") ⟨[], "   "⟩ = (⟨[], "   "⟩, none) :=
  ⟨by decide, emptyInputRejected "u1" "a1" (some "t1") ⟨[], "   "⟩
    (Or.inr (by decide))⟩

lemma parseMessages_none_of_mem :
    ∀ (l : List RawMessage) (r : RawMessage), r ∈ l →
      parseMessage r = none → parseMessages l = none := by
  intro l
  induction l with
  | nil => intro r hr _; simp at hr
  | cons a rest ih =>
    intro r hr hnone
    rcases List.mem_cons.mp hr with rfl | hr
    · simp [parseMessages, hnone]
    · cases ha : parseMessage a <;>
        simp [parseMessages, ha, ih r hr hnone]

lemma parseRole_none (s : String) (h1 : s ≠ "system") (h2 : s ≠ "user")
    (h3 : s ≠ "assistant") : parseRole s = none := by
  simp [parseRole, h1, h2, h3]

/-- C9: MessageSchema accepts a message only if its role string is exactly
system, user, or assistant, and getThread yields an error on any payload one
of whose messages carries any other role, so every validated Message exposed
to the UI has its role in that closed set. -/
theorem messageRoleClosed :
    (∀ (raw : RawMessage) (msg : Message), parseMessage raw = some msg →
        raw.role = "system" ∨ raw.role = "user" ∨ raw.role = "assistant")
      ∧ (∀ (resp : FetchResponse RawThreadWithMessages) (raw : RawMessage),
          raw ∈ resp.body.messages →
          raw.role ≠ "system" → raw.role ≠ "user" → raw.role ≠ "assistant" →
          ∃ e, getThread resp = Except.error e) := by
  constructor
  · intro raw msg h
    by_cases h1 : raw.role = "system"
    · exact Or.inl h1
    by_cases h2 : raw.role = "user"
    · exact Or.inr (Or.inl h2)
    by_cases h3 : raw.role = "assistant"
    · exact Or.inr (Or.inr h3)
    rw [parseMessage, parseRole_none raw.role h1 h2 h3] at h
    exact absurd h (by simp)
  · intro resp raw hmem h1 h2 h3
    cases hok : resp.ok with
    | false => exact ⟨"Failed to fetch thread", by simp [getThread, hok]⟩
    | true =>
      have hpm : parseMessage raw = none := by
        rw [parseMessage, parseRole_none raw.role h1 h2 h3]
      have hmap : parseMessages resp.body.messages = none :=
        parseMessages_none_of_mem resp.body.messages raw hmem hpm
      have hptm : parseThreadWithMessages resp.body = none := by
        cases hpt : parseThread resp.body.thread <;>
          simp [parseThreadWithMessages, hpt, hmap]
      exact ⟨"ZodError: invalid thread payload", by simp [getThread, hok, hptm]⟩

/-- A server payload carrying a message with the unknown role bot. -/
def badRawMessage : RawMessage :=
  ⟨"m1", "t1", "bot", "hi", none, "2024-01-01T00:00:00Z"⟩

/-- An ok response whose thread payload contains the bad-role message. -/
def badThreadResponse : FetchResponse RawThreadWithMessages :=
  ⟨true,
    ⟨⟨"t1", "New Thread", "2024-01-01T00:00:00Z", "2024-01-01T00:00:00Z", none⟩,
      [badRawMessage]⟩⟩

/-- Witness for C9: on the concrete bad-role payload getThread errors. -/
theorem messageRoleClosed_witness :
    badRawMessage ∈ badThreadResponse.body.messages
      ∧ ∃ e, getThread badThreadResponse = Except.error e :=
  ⟨by decide, messageRoleClosed.2 badThreadResponse badRawMessage (by decide)
    (by decide) (by decide) (by decide)⟩

/-- C10: createThread always POSTs to /api/threads with the body
JSON.stringify of the object titled New Thread, and on a non-ok response it
throws instead of returning a thread. -/
theorem createThreadContract :
    createThreadRequest.method = "POST"
      ∧ createThreadRequest.url = "/api/threads"
      ∧ createThreadRequest.body = "\x7b\"title\":\"New Thread\"\x7d"
      ∧ ∀ resp : FetchResponse RawThread, resp.ok = false →
          createThread resp = Except.error "Failed to create thread" := by
  refine ⟨rfl, rfl, by decide, ?_⟩
  intro resp hok
  simp [createThread, hok]

/-- A concrete non-ok response to the thread-creation POST. -/
def failedCreateResponse : FetchResponse RawThread :=
  ⟨false, ⟨"t9", "x", "2024-01-01T00:00:00Z", "2024-01-01T00:00:00Z", none⟩⟩

/-- Witness for C10: the concrete non-ok response makes createThread throw. -/
theorem createThreadContract_witness :
    failedCreateResponse.ok = false
      ∧ createThread failedCreateResponse
          = Except.error "Failed to create thread" :=
  ⟨rfl, createThreadContract.2.2.2 failedCreateResponse rfl⟩

lemma stepProc_pcSum (s : OrchState) (i : Bool) (s' : OrchState)
    (h : stepProc s i = some s') : pcSum s' = pcSum s + 1 := by
  cases i <;>
    simp only [stepProc, pcOf, Bool.false_eq_true, if_false, if_true] at h <;>
    split at h <;>
    (try split at h) <;>
    simp only [Option.some.injEq, reduceCtorEq] at h <;>
    subst h <;>
    simp [pcSum, setPc, setView] <;>
    omega

lemma execTrace_pcSum :
    ∀ (t : List Bool) (s s' : OrchState), execTrace s t = some s' →
      pcSum s' = pcSum s + t.length := by
  intro t
  induction t with
  | nil =>
    intro s s' h
    simp only [execTrace, Option.some.injEq] at h
    simp [← h]
  | cons i t ih =>
    intro s s' h
    simp only [execTrace] at h
    cases hstep : stepProc s i with
    | none => rw [hstep] at h; simp at h
    | some s1 =>
      rw [hstep] at h
      have h1 := stepProc_pcSum s i s1 hstep
      have h2 := ih s1 s' h
      simp [List.length_cons]
      omega

lemma completeTrace_length (t : List Bool) (s : OrchState)
    (hexec : execTrace initState t = some s) (hcomp : completeRun s) :
    t.length = 10 := by
  have hsum := execTrace_pcSum t initState s hexec
  rcases hcomp with ⟨h0, h1⟩
  simp [pcSum, initState, h0, h1] at hsum
  omega

lemma scheduleOutcome_key :
    ∀ b0 b1 b2 b3 b4 b5 b6 b7 b8 b9 : Bool,
      okOutcome (execTrace initState [b0, b1, b2, b3, b4, b5, b6, b7, b8, b9])
        [b0, b1, b2, b3, b4, b5, b6, b7, b8, b9] := by
  decide

/-- C8: under the thread-scoped exclusive critical section held from before
UserPersisted through MaintenanceEvaluated, every valid complete interleaving
of two exchanges on the same thread is fully serialized: one exchange's five
steps all precede the other's, and the later exchange's composed context
contains all of the earlier exchange's persisted messages, never an
interleaved or partial view. -/
theorem sameThreadSerialized (t : List Bool) (s : OrchState)
    (hexec : execTrace initState t = some s) (hcomp : completeRun s) :
    serializedOutcome t s := by
  have hlen : t.length = 10 := completeTrace_length t s hexec hcomp
  rcases t with _ | ⟨b0, t⟩; · simp at hlen
  rcases t with _ | ⟨b1, t⟩; · simp at hlen
  rcases t with _ | ⟨b2, t⟩; · simp at hlen
  rcases t with _ | ⟨b3, t⟩; · simp at hlen
  rcases t with _ | ⟨b4, t⟩; · simp at hlen
  rcases t with _ | ⟨b5, t⟩; · simp at hlen
  rcases t with _ | ⟨b6, t⟩; · simp at hlen
  rcases t with _ | ⟨b7, t⟩; · simp at hlen
  rcases t with _ | ⟨b8, t⟩; · simp at hlen
  rcases t with _ | ⟨b9, t⟩; · simp at hlen
  rcases t with _ | ⟨bx, t⟩
  · have key := scheduleOutcome_key b0 b1 b2 b3 b4 b5 b6 b7 b8 b9
    rw [hexec] at key
    exact key hcomp
  · exfalso
    simp [List.length_cons] at hlen

/-- Witness for C8: the canonical schedule where exchange false runs first is
valid and complete, and its outcome is serialized with exchange true's
composed context containing both of exchange false's messages. -/
theorem sameThreadSerialized_witness :
    execTrace initState canonicalTraceFT = some finalStateFT
      ∧ completeRun finalStateFT
      ∧ serializedOutcome canonicalTraceFT finalStateFT :=
  ⟨by decide, by decide,
    sameThreadSerialized canonicalTraceFT finalStateFT (by decide) (by decide)⟩

end GemmaChat
